import Mathlib

/-!
Verification of the decision ledger and its query/pagination engine
(muzzExercise, Go).  The Go sources are shallowly embedded:

* strings and byte slices are modelled as `List Nat` (byte values);
* `time.Time` values are modelled as their millisecond Unix value
  (`Nat`): the deployed schema stores `datetime(3)` and every comparison
  in the queries happens at millisecond resolution;
* Go `uint64` identifiers are modelled as `Nat` (the code never does
  arithmetic on them), Go `int` page limits as `Int`;
* the SQL table of decisions is a `List` of rows, SQL queries are
  filters/sorts over it; `gorm` clause semantics are modelled per row;
* fallible code returns `Except`/`Option`; a Go runtime panic
  (out-of-range slice index) is the explicit `RepoError.outOfRange`.
-/

namespace MuzzExplore

/-- `pagination.Cursor` (internal/utils/pagination/cursor.go): the opaque
pagination state.  `ActorID` is a Go `uint64` (here `Nat`), `UpdatedUnix`
an `int64` millisecond timestamp (here `Int`, JSON tag `omitempty`). -/
structure Cursor where
  actorID : Nat
  updatedUnix : Int
deriving DecidableEq

/-- The single error value of `pagination.Decode`
(`fmt.Errorf("invalid pagination token")`), the spec's `InvalidCursor`. -/
inductive CursorError where
  | invalid
deriving DecidableEq

/-! ### Decimal numerals (model of `strconv`/`encoding/json` integer text)

`encoding/json` prints a `uint64`/`int64` as its decimal numeral and
parses integer JSON numbers back.  We model printing with an explicit
fuel argument so every definition is structural (kernel-evaluable). -/

/-- Decimal digits of `n`, most significant first, as ASCII bytes; `fuel`
bounds the recursion depth (any `fuel` with `n < 10 ^ fuel` is exact). -/
def natBytesAux : Nat → Nat → List Nat
  | 0, _ => []
  | fuel + 1, n => if n < 10 then [48 + n] else natBytesAux fuel (n / 10) ++ [48 + n % 10]

/-- The decimal numeral of `n` as ASCII bytes (model of `uint64` printing). -/
def natBytes (n : Nat) : List Nat :=
  natBytesAux (n + 1) n

/-- Value of a big-endian list of ASCII digit bytes. -/
def digitsVal (l : List Nat) : Nat :=
  l.foldl (fun acc b => acc * 10 + (b - 48)) 0

/-- Is the byte an ASCII decimal digit? -/
def isDigit (b : Nat) : Prop := 48 ≤ b ∧ b ≤ 57

instance (b : Nat) : Decidable (isDigit b) := by unfold isDigit; infer_instance

/-- Greedily split a byte list into its leading digit run and the rest. -/
def takeDigits : List Nat → List Nat × List Nat
  | [] => ([], [])
  | b :: bs =>
    if isDigit b then
      let r := takeDigits bs
      (b :: r.1, r.2)
    else ([], b :: bs)

/-- Parse a nonempty digit run as a `Nat`, returning the unconsumed rest. -/
def parseNat (bs : List Nat) : Option (Nat × List Nat) :=
  match takeDigits bs with
  | ([], _) => none
  | (ds, rest) => some (digitsVal ds, rest)

/-- The decimal numeral of an `int64`, with a leading minus when negative. -/
def intBytes : Int → List Nat
  | .ofNat n => natBytes n
  | .negSucc m => 45 :: natBytes (m + 1)

/-- Parse an optionally minus-signed digit run as an `Int`. -/
def parseInt (bs : List Nat) : Option (Int × List Nat) :=
  match bs with
  | [] => none
  | b :: rest =>
    if b = 45 then (parseNat rest).map (fun p => (-(p.1 : Int), p.2))
    else (parseNat (b :: rest)).map (fun p => ((p.1 : Int), p.2))

theorem natBytesAux_digits {fuel n : Nat} : ∀ b ∈ natBytesAux fuel n, isDigit b := by
  induction fuel generalizing n with
  | zero => intro b hb; simp [natBytesAux] at hb
  | succ fuel ih =>
    intro b hb
    unfold natBytesAux at hb
    by_cases h : n < 10
    · simp [h] at hb
      subst hb
      exact ⟨by omega, by omega⟩
    · simp [h] at hb
      rcases hb with hb | hb
      · exact ih _ hb
      · have : n % 10 < 10 := Nat.mod_lt _ (by omega)
        subst hb
        exact ⟨by omega, by omega⟩

theorem natBytesAux_ne_nil {fuel n : Nat} : natBytesAux (fuel + 1) n ≠ [] := by
  unfold natBytesAux
  by_cases h : n < 10 <;> simp [h]

theorem digitsVal_append_digit (l : List Nat) (b : Nat) :
    digitsVal (l ++ [b]) = digitsVal l * 10 + (b - 48) := by
  unfold digitsVal
  rw [List.foldl_append]
  rfl

theorem digitsVal_natBytesAux {fuel n : Nat} (h : n < 10 ^ fuel) :
    digitsVal (natBytesAux fuel n) = n := by
  induction fuel generalizing n with
  | zero =>
    rw [Nat.pow_zero] at h
    have hn : n = 0 := by omega
    subst hn
    rfl
  | succ fuel ih =>
    unfold natBytesAux
    by_cases hn : n < 10
    · simp only [hn, if_true]
      show digitsVal [48 + n] = n
      unfold digitsVal
      simp [List.foldl]
    · simp only [hn, if_false]
      rw [digitsVal_append_digit]
      have hdiv : n / 10 < 10 ^ fuel := by
        apply Nat.div_lt_of_lt_mul
        rw [pow_succ] at h
        omega
      rw [ih hdiv]
      omega

theorem digitsVal_natBytes (n : Nat) : digitsVal (natBytes n) = n := by
  have h1 : n < 10 ^ n := Nat.lt_pow_self (by omega) n
  have h2 : (10 : Nat) ^ n ≤ 10 ^ (n + 1) := Nat.pow_le_pow_right (by omega) (by omega)
  exact digitsVal_natBytesAux (by omega)

/-- The byte list `rest` does not begin with a digit. -/
def noDigitHead (rest : List Nat) : Prop :=
  ∀ b, rest.head? = some b → ¬ isDigit b

theorem takeDigits_exact {ds rest : List Nat} (hds : ∀ b ∈ ds, isDigit b)
    (hrest : noDigitHead rest) : takeDigits (ds ++ rest) = (ds, rest) := by
  induction ds with
  | nil =>
    simp only [List.nil_append]
    cases rest with
    | nil => rfl
    | cons b bs =>
      have : ¬ isDigit b := hrest b rfl
      simp [takeDigits, this]
  | cons d ds ih =>
    have hd : isDigit d := hds d (by simp)
    simp only [List.cons_append, takeDigits, hd, if_pos, List.append_eq]
    rw [ih (fun b hb => hds b (by simp [hb]))]

theorem natBytes_digits {n : Nat} : ∀ b ∈ natBytes n, isDigit b := by
  intro b hb
  exact natBytesAux_digits b hb

theorem natBytes_ne_nil {n : Nat} : natBytes n ≠ [] := natBytesAux_ne_nil

theorem parseNat_natBytes (n : Nat) {rest : List Nat} (hrest : noDigitHead rest) :
    parseNat (natBytes n ++ rest) = some (n, rest) := by
  unfold parseNat
  rw [takeDigits_exact natBytes_digits hrest]
  cases h : natBytes n with
  | nil => exact absurd h natBytes_ne_nil
  | cons x xs =>
    have hval : digitsVal (x :: xs) = n := by rw [← h, digitsVal_natBytes]
    simp [hval]

theorem natBytes_head_digit (n : Nat) :
    ∀ b, (natBytes n).head? = some b → isDigit b := by
  intro b hb
  cases h : natBytes n with
  | nil =>
    rw [h] at hb
    simp at hb
  | cons x xs =>
    rw [h] at hb
    simp only [List.head?_cons, Option.some.injEq] at hb
    subst hb
    exact natBytes_digits x (by rw [h]; simp)

theorem parseInt_intBytes (i : Int) {rest : List Nat} (hrest : noDigitHead rest) :
    parseInt (intBytes i ++ rest) = some (i, rest) := by
  cases i with
  | ofNat n =>
    show parseInt (natBytes n ++ rest) = _
    cases h : natBytes n with
    | nil => exact absurd h natBytesAux_ne_nil
    | cons x xs =>
      have hx : isDigit x := natBytes_head_digit n x (by rw [h]; rfl)
      have hx45 : x ≠ 45 := by
        rcases hx with ⟨h1, _⟩
        omega
      simp only [h, List.cons_append, parseInt, hx45, if_false]
      rw [← List.cons_append, ← h, parseNat_natBytes n hrest]
      rfl
  | negSucc m =>
    show parseInt (45 :: (natBytes (m + 1) ++ rest)) = _
    simp only [parseInt, if_pos rfl]
    rw [parseNat_natBytes (m + 1) hrest]
    simp [Int.negSucc_eq]

/-! ### JSON layer (model of `encoding/json` on the `Cursor` struct)

`json.Marshal(Cursor{...})` produces `{"actor_id":N}` or
`{"actor_id":N,"updated_unix":M}` (struct field order, `omitempty` drops
a zero `updated_unix`).  `json.Unmarshal` is modelled as a parser for
flat JSON objects with integer members: unknown keys are ignored, a
later duplicate key wins, a negative value for the `uint64` field
`actor_id` is an error — as in Go.  (The Go parser also accepts
whitespace, strings, floats and nested values; those inputs never arise
from `Encode` and the modelled parser simply rejects them.) -/

/-- ASCII bytes of `actor_id`. -/
def actorKeyBytes : List Nat := [97, 99, 116, 111, 114, 95, 105, 100]

/-- ASCII bytes of `updated_unix`. -/
def updatedKeyBytes : List Nat := [117, 112, 100, 97, 116, 101, 100, 95, 117, 110, 105, 120]

/-- The JSON bytes `json.Marshal` produces for a cursor
(34 is the quote, 58 `:`, 44 `,`, 123/125 the braces). -/
def cursorJsonBytes (c : Cursor) : List Nat :=
  123 :: (34 :: (actorKeyBytes ++ 34 :: 58 :: natBytes c.actorID))
    ++ (if c.updatedUnix = 0 then [] else
        44 :: 34 :: (updatedKeyBytes ++ 34 :: 58 :: intBytes c.updatedUnix))
    ++ [125]

/-- Scan a quoted string body up to the closing quote (no escapes, as in
every string `Encode` emits). -/
def scanKey : List Nat → Option (List Nat × List Nat)
  | [] => none
  | b :: rest =>
    if b = 34 then some ([], rest)
    else (scanKey rest).map (fun p => (b :: p.1, p.2))

/-- Parse a leading quoted string. -/
def parseQuoted (bs : List Nat) : Option (List Nat × List Nat) :=
  match bs with
  | [] => none
  | b :: rest => if b = 34 then scanKey rest else none

/-- Parse the members of a JSON object after the opening brace:
`"key":int` pairs separated by `,` and terminated by `}`.  `fuel` bounds
the recursion (one unit per member). -/
def parseMembers : Nat → List Nat → Option (List (List Nat × Int) × List Nat)
  | 0, _ => none
  | fuel + 1, bs =>
    match parseQuoted bs with
    | none => none
    | some (key, r1) =>
      match r1 with
      | [] => none
      | c :: r2 =>
        if c = 58 then
          match parseInt r2 with
          | none => none
          | some (v, r3) =>
            match r3 with
            | [] => none
            | s :: r4 =>
              if s = 44 then (parseMembers fuel r4).map (fun p => ((key, v) :: p.1, p.2))
              else if s = 125 then some ([(key, v)], r4)
              else none
        else none

/-- Fold one parsed member into the cursor being built (Go `Unmarshal`
field assignment: negative numbers cannot enter the `uint64` field). -/
def applyField (c : Cursor) (f : List Nat × Int) : Option Cursor :=
  if f.1 = actorKeyBytes then
    match f.2 with
    | .ofNat n => some { c with actorID := n }
    | .negSucc _ => none
  else if f.1 = updatedKeyBytes then some { c with updatedUnix := f.2 }
  else some c

/-- Build a cursor from the member list, starting from the zero value. -/
def cursorOfFields (fs : List (List Nat × Int)) : Option Cursor :=
  fs.foldlM applyField ⟨0, 0⟩

/-- Parse a whole byte slice as one JSON cursor object (Go `Unmarshal`
fails on trailing data). -/
def parseCursorJson (bs : List Nat) : Option Cursor :=
  match bs with
  | [] => none
  | b :: rest =>
    if b = 123 then
      match rest with
      | [] => none
      | r :: rs =>
        if r = 125 then (if rs = [] then some ⟨0, 0⟩ else none)
        else
          match parseMembers (rs.length + 2) (r :: rs) with
          | none => none
          | some (fields, after) => if after = [] then cursorOfFields fields else none
    else none

theorem scanKey_exact {key rest : List Nat} (hk : 34 ∉ key) :
    scanKey (key ++ 34 :: rest) = some (key, rest) := by
  induction key with
  | nil => simp [scanKey]
  | cons b bs ih =>
    have hb : b ≠ 34 := fun h => hk (by simp [h])
    simp only [List.cons_append, scanKey, hb, if_false, List.append_eq]
    rw [ih (fun h => hk (by simp [h]))]
    rfl

theorem parseQuoted_exact {key rest : List Nat} (hk : 34 ∉ key) :
    parseQuoted (34 :: (key ++ 34 :: rest)) = some (key, rest) := by
  simp only [parseQuoted, if_pos rfl]
  exact scanKey_exact hk

theorem parseMembers_step (fuel : Nat) (key : List Nat) (i : Int) (s : Nat) (r4 : List Nat)
    (hk : 34 ∉ key) (hs : ¬ isDigit s) :
    parseMembers (fuel + 1) (34 :: (key ++ 34 :: 58 :: (intBytes i ++ s :: r4))) =
      (if s = 44 then (parseMembers fuel r4).map (fun p => ((key, i) :: p.1, p.2))
       else if s = 125 then some ([(key, i)], r4)
       else none) := by
  conv_lhs => rw [parseMembers]
  rw [parseQuoted_exact hk]
  have hint : parseInt (intBytes i ++ s :: r4) = some (i, s :: r4) :=
    parseInt_intBytes i (by intro b hb; simp at hb; subst hb; exact hs)
  simp [hint]

theorem quote_not_mem_actorKey : (34 : Nat) ∉ actorKeyBytes := by decide

theorem quote_not_mem_updatedKey : (34 : Nat) ∉ updatedKeyBytes := by decide

theorem cursorOfFields_actor_only (n : Nat) :
    cursorOfFields [(actorKeyBytes, Int.ofNat n)] = some ⟨n, 0⟩ := by
  simp [cursorOfFields, applyField]

theorem cursorOfFields_actor_updated (n : Nat) (u : Int) :
    cursorOfFields [(actorKeyBytes, Int.ofNat n), (updatedKeyBytes, u)] = some ⟨n, u⟩ := by
  have hne : updatedKeyBytes ≠ actorKeyBytes := by decide
  simp [cursorOfFields, applyField, hne]

theorem parseCursorJson_two (b r : Nat) (rs : List Nat) :
    parseCursorJson (b :: r :: rs) =
      (if b = 123 then
        if r = 125 then (if rs = [] then some ⟨0, 0⟩ else none)
        else
          match parseMembers (rs.length + 2) (r :: rs) with
          | none => none
          | some (fields, after) => if after = [] then cursorOfFields fields else none
      else none) := rfl

theorem parseCursorJson_canonical (c : Cursor) :
    parseCursorJson (cursorJsonBytes c) = some c := by
  obtain ⟨a, u⟩ := c
  by_cases hu : u = 0
  · subst hu
    have hshape : cursorJsonBytes ⟨a, 0⟩ =
        123 :: 34 :: (actorKeyBytes ++ 34 :: 58 :: (intBytes (Int.ofNat a) ++ 125 :: [])) := by
      rw [show intBytes (Int.ofNat a) = natBytes a from rfl]
      simp [cursorJsonBytes, List.append_assoc]
    rw [hshape, parseCursorJson_two, if_pos rfl, if_neg (by decide)]
    have harg : ∀ X : List Nat, X.length + 2 = X.length + 1 + 1 := fun _ => rfl
    rw [harg]
    rw [parseMembers_step _ actorKeyBytes (Int.ofNat a) 125 [] quote_not_mem_actorKey (by decide)]
    rw [if_neg (by decide), if_pos rfl]
    show (if ([] : List Nat) = [] then cursorOfFields [(actorKeyBytes, Int.ofNat a)] else none) =
      some ⟨a, 0⟩
    rw [if_pos rfl, cursorOfFields_actor_only]
  · have hshape : cursorJsonBytes ⟨a, u⟩ =
        123 :: 34 :: (actorKeyBytes ++ 34 :: 58 ::
          (intBytes (Int.ofNat a) ++ 44 ::
            (34 :: (updatedKeyBytes ++ 34 :: 58 :: (intBytes u ++ 125 :: []))))) := by
      rw [show intBytes (Int.ofNat a) = natBytes a from rfl]
      simp [cursorJsonBytes, hu, List.append_assoc]
    rw [hshape, parseCursorJson_two, if_pos rfl, if_neg (by decide)]
    have harg : ∀ X : List Nat, X.length + 2 = X.length + 1 + 1 := fun _ => rfl
    rw [harg]
    rw [parseMembers_step _ actorKeyBytes (Int.ofNat a) 44 _ quote_not_mem_actorKey (by decide)]
    rw [if_pos rfl]
    obtain ⟨f, hf⟩ : ∃ f : Nat, (actorKeyBytes ++ 34 :: 58 ::
          (intBytes (Int.ofNat a) ++ 44 ::
            (34 :: (updatedKeyBytes ++ 34 :: 58 :: (intBytes u ++ 125 :: []))))).length = f + 1 := by
      refine ⟨(34 :: 58 ::
          (intBytes (Int.ofNat a) ++ 44 ::
            (34 :: (updatedKeyBytes ++ 34 :: 58 :: (intBytes u ++ 125 :: []))))).length +
          actorKeyBytes.length - 1, ?_⟩
      rw [List.length_append]
      have h8 : 0 < actorKeyBytes.length := by decide
      omega
    rw [hf]
    rw [parseMembers_step (f + 1) updatedKeyBytes u 125 [] quote_not_mem_updatedKey (by decide)]
    rw [if_neg (by decide), if_pos rfl]
    show (if ([] : List Nat) = [] then
        cursorOfFields [(actorKeyBytes, Int.ofNat a), (updatedKeyBytes, u)] else none) =
      some ⟨a, u⟩
    rw [if_pos rfl, cursorOfFields_actor_updated]

/-! ### Base64 layer (model of `encoding/base64` `URLEncoding`)

`base64.URLEncoding` uses the URL-safe alphabet `A-Z a-z 0-9 - _` with
`=` padding (byte 61).  Encoding maps 3-byte groups to 4 sextet
characters; decoding inverts it, rejecting any byte outside the alphabet,
misplaced padding or a length that is not a multiple of 4 — the failure
modes of Go `DecodeString` on the tokens this system handles. -/

/-- URL-safe alphabet byte for a sextet. -/
def b64Byte (s : Nat) : Nat :=
  if s < 26 then 65 + s
  else if s < 52 then 97 + (s - 26)
  else if s < 62 then 48 + (s - 52)
  else if s = 62 then 45
  else 95

/-- Sextet value of an alphabet byte, `none` outside the alphabet. -/
def b64Val (b : Nat) : Option Nat :=
  if 65 ≤ b ∧ b ≤ 90 then some (b - 65)
  else if 97 ≤ b ∧ b ≤ 122 then some (b - 97 + 26)
  else if 48 ≤ b ∧ b ≤ 57 then some (b - 48 + 52)
  else if b = 45 then some 62
  else if b = 95 then some 63
  else none

/-- Encode a byte list with URL-safe base64 and `=` padding. -/
def b64Encode : List Nat → List Nat
  | [] => []
  | [a] => [b64Byte (a / 4), b64Byte (a % 4 * 16), 61, 61]
  | [a, b] => [b64Byte (a / 4), b64Byte (a % 4 * 16 + b / 16), b64Byte (b % 16 * 4), 61]
  | a :: b :: c :: rest =>
    b64Byte (a / 4) :: b64Byte (a % 4 * 16 + b / 16) :: b64Byte (b % 16 * 4 + c / 64) ::
      b64Byte (c % 64) :: b64Encode rest

/-- Decode a URL-safe base64 byte list (padding only in the final group,
as Go enforces; unused padding bits are not checked, as in Go's
non-strict decoder). -/
def b64Decode : List Nat → Option (List Nat)
  | [] => some []
  | c1 :: c2 :: c3 :: c4 :: rest =>
    match b64Val c1 with
    | none => none
    | some s1 =>
      match b64Val c2 with
      | none => none
      | some s2 =>
        if c3 = 61 then
          (if c4 = 61 ∧ rest = [] then some [s1 * 4 + s2 / 16] else none)
        else
          match b64Val c3 with
          | none => none
          | some s3 =>
            if c4 = 61 then
              (if rest = [] then some [s1 * 4 + s2 / 16, s2 % 16 * 16 + s3 / 4] else none)
            else
              match b64Val c4 with
              | none => none
              | some s4 =>
                (b64Decode rest).map
                  (fun tail => (s1 * 4 + s2 / 16) :: (s2 % 16 * 16 + s3 / 4) ::
                    (s3 % 4 * 64 + s4) :: tail)
  | _ => none

theorem b64Val_b64Byte : ∀ s, s < 64 → b64Val (b64Byte s) = some s := by decide

theorem b64Byte_ne_pad : ∀ s, s < 64 → b64Byte s ≠ 61 := by decide

theorem b64_roundtrip : ∀ bs : List Nat, (∀ b ∈ bs, b < 256) →
    b64Decode (b64Encode bs) = some bs
  | [], _ => rfl
  | [a], h => by
    have ha : a < 256 := h a (by simp)
    have h1 : a / 4 < 64 := by omega
    have h2 : a % 4 * 16 < 64 := by omega
    show b64Decode [b64Byte (a / 4), b64Byte (a % 4 * 16), 61, 61] = some [a]
    unfold b64Decode
    simp [b64Val_b64Byte _ h1, b64Val_b64Byte _ h2]
    omega
  | [a, b], h => by
    have ha : a < 256 := h a (by simp)
    have hb : b < 256 := h b (by simp)
    have h1 : a / 4 < 64 := by omega
    have h2 : a % 4 * 16 + b / 16 < 64 := by omega
    have h3 : b % 16 * 4 < 64 := by omega
    have hne3 : b64Byte (b % 16 * 4) ≠ 61 := b64Byte_ne_pad _ h3
    show b64Decode
        [b64Byte (a / 4), b64Byte (a % 4 * 16 + b / 16), b64Byte (b % 16 * 4), 61] = some [a, b]
    unfold b64Decode
    simp [b64Val_b64Byte _ h1, b64Val_b64Byte _ h2, hne3, b64Val_b64Byte _ h3]
    omega
  | a :: b :: c :: rest, h => by
    have ha : a < 256 := h a (by simp)
    have hb : b < 256 := h b (by simp)
    have hc : c < 256 := h c (by simp)
    have h1 : a / 4 < 64 := by omega
    have h2 : a % 4 * 16 + b / 16 < 64 := by omega
    have h3 : b % 16 * 4 + c / 64 < 64 := by omega
    have h4 : c % 64 < 64 := by omega
    have hne3 : b64Byte (b % 16 * 4 + c / 64) ≠ 61 := b64Byte_ne_pad _ h3
    have hne4 : b64Byte (c % 64) ≠ 61 := b64Byte_ne_pad _ h4
    have ih := b64_roundtrip rest (fun x hx => h x (by simp [hx]))
    show b64Decode (b64Byte (a / 4) :: b64Byte (a % 4 * 16 + b / 16) ::
        b64Byte (b % 16 * 4 + c / 64) :: b64Byte (c % 64) :: b64Encode rest) =
      some (a :: b :: c :: rest)
    unfold b64Decode
    simp [b64Val_b64Byte _ h1, b64Val_b64Byte _ h2, hne3, b64Val_b64Byte _ h3, hne4,
      b64Val_b64Byte _ h4, ih]
    refine ⟨by omega, by omega, by omega⟩

theorem b64Encode_ne_nil {a : Nat} {bs : List Nat} : b64Encode (a :: bs) ≠ [] := by
  cases bs with
  | nil => simp [b64Encode]
  | cons b bs =>
    cases bs with
    | nil => simp [b64Encode]
    | cons c bs => simp [b64Encode]

/-! ### `pagination.Encode` / `pagination.Decode` (cursor.go) -/

/-- `pagination.Encode`: JSON-marshal the cursor, then base64 it.
(The `json.Marshal` error branch is dead: marshalling this struct cannot
fail, so the Go function's error result is always `nil`.) -/
def Encode (c : Cursor) : List Nat :=
  b64Encode (cursorJsonBytes c)

/-- `pagination.Decode`: the empty token is the zero cursor (first page);
otherwise base64-decode and JSON-unmarshal, any failure being the single
`invalid pagination token` error. -/
def Decode (token : List Nat) : Except CursorError Cursor :=
  if token = [] then .ok ⟨0, 0⟩
  else
    match b64Decode token with
    | none => .error .invalid
    | some bs =>
      match parseCursorJson bs with
      | none => .error .invalid
      | some c => .ok c

theorem intBytes_lt {i : Int} : ∀ b ∈ intBytes i, b < 256 := by
  intro b hb
  cases i with
  | ofNat n =>
    have := natBytes_digits b hb
    unfold isDigit at this
    omega
  | negSucc m =>
    simp only [intBytes, List.mem_cons] at hb
    rcases hb with hb | hb
    · omega
    · have := natBytes_digits b hb
      unfold isDigit at this
      omega

theorem cursorJsonBytes_lt {c : Cursor} : ∀ b ∈ cursorJsonBytes c, b < 256 := by
  intro b hb
  have hnat : ∀ x ∈ natBytes c.actorID, x < 256 := by
    intro x hx
    have := natBytes_digits x hx
    unfold isDigit at this
    omega
  have hint : ∀ x ∈ intBytes c.updatedUnix, x < 256 := intBytes_lt
  have hk1 : ∀ x ∈ actorKeyBytes, x < 256 := by decide
  have hk2 : ∀ x ∈ updatedKeyBytes, x < 256 := by decide
  by_cases hu : c.updatedUnix = 0 <;>
    simp [cursorJsonBytes, hu] at hb <;>
    casesm* _ ∨ _ <;>
    first
      | omega
      | exact hnat _ (by assumption)
      | exact hint _ (by assumption)
      | exact hk1 _ (by assumption)
      | exact hk2 _ (by assumption)

theorem cursorJsonBytes_ne_nil (c : Cursor) : cursorJsonBytes c ≠ [] := by
  intro h
  simp [cursorJsonBytes] at h

theorem Encode_ne_nil (c : Cursor) : Encode c ≠ [] := by
  unfold Encode
  obtain ⟨d, ds, hds⟩ := List.exists_cons_of_ne_nil (cursorJsonBytes_ne_nil c)
  rw [hds]
  exact b64Encode_ne_nil

/-- The codec round-trip: decoding an encoded cursor recovers it exactly. -/
theorem Decode_Encode (c : Cursor) : Decode (Encode c) = .ok c := by
  unfold Decode
  rw [if_neg (Encode_ne_nil c)]
  unfold Encode
  rw [b64_roundtrip _ cursorJsonBytes_lt]
  simp [parseCursorJson_canonical]

/-! ### The decision table (internal/db/models.go)

A `db.Decision` row.  `ActorID`/`RecipientID` are opaque `uint64`
identifiers (`Nat`; the code never computes on them), timestamps are
millisecond Unix values (`Nat`; the deployed column type is
`datetime(3)` and the cursor comparisons happen at `UnixMilli`
resolution). -/
structure Decision where
  actorID : Nat
  recipientID : Nat
  liked : Bool
  createdAt : Nat
  updatedAt : Nat
deriving DecidableEq

/-- The `decisions` table: its rows, in insertion order. -/
abbrev Table := List Decision

/-- Errors of the repository layer: a failed `pagination.Decode`
(surfaced as the returned error), or the Go runtime panic
`index out of range` that `decisions[limit-1]` raises for a
non-positive `limit` (modelled as an explicit error value). -/
inductive RepoError where
  | invalidCursor
  | outOfRange
deriving DecidableEq

/-! ### Repository queries (internal/repository/decision_repo.go) -/

/-- Row predicate of `GetLikers`/`CountLikers`: `d.recipient_id = ? AND
d.liked = true` and the `NOT EXISTS` subquery excluding actors the
recipient has passed (`d2.actor_id = recipient AND d2.recipient_id =
d.actor_id AND d2.liked = false`). -/
def likerRow (tbl : Table) (recipientID : Nat) (d : Decision) : Bool :=
  d.recipientID == recipientID && d.liked &&
    !(tbl.any fun d2 => d2.actorID == recipientID && d2.recipientID == d.actorID &&
      d2.liked == false)

/-- Row predicate of `GetNewLikers`: `likerRow` plus the `NOT EXISTS`
subquery excluding mutual likes (`actor_id = d.recipient_id AND
recipient_id = d.actor_id AND liked = true`). -/
def newLikerRow (tbl : Table) (recipientID : Nat) (d : Decision) : Bool :=
  d.recipientID == recipientID && d.liked &&
    !(tbl.any fun m => m.actorID == d.recipientID && m.recipientID == d.actorID && m.liked) &&
    !(tbl.any fun d2 => d2.actorID == recipientID && d2.recipientID == d.actorID &&
      d2.liked == false)

/-- The `ORDER BY` sort key of both list queries: `(updated_at, actor_id)`. -/
def key (d : Decision) : Nat × Nat :=
  (d.updatedAt, d.actorID)

/-- Strict lexicographic order on sort keys. -/
def keyLt (k1 k2 : Nat × Nat) : Prop :=
  k1.1 < k2.1 ∨ (k1.1 = k2.1 ∧ k1.2 < k2.2)

instance (k1 k2 : Nat × Nat) : Decidable (keyLt k1 k2) := by
  unfold keyLt
  infer_instance

/-- `ORDER BY d.updated_at DESC, d.actor_id DESC` as a total preorder:
`d1` may come before `d2` when its key is the larger one. -/
def likersOrder (d1 d2 : Decision) : Prop :=
  keyLt (key d2) (key d1) ∨ key d2 = key d1

instance (d1 d2 : Decision) : Decidable (likersOrder d1 d2) := by
  unfold likersOrder
  infer_instance

instance : IsTotal Decision likersOrder where
  total d1 d2 := by
    unfold likersOrder keyLt
    simp only [Prod.ext_iff]
    omega

instance : IsTrans Decision likersOrder where
  trans d1 d2 d3 h12 h23 := by
    unfold likersOrder keyLt at h12 h23 ⊢
    simp only [Prod.ext_iff] at h12 h23 ⊢
    omega

/-- The cursor position filter of both list queries:
`d.updated_at < ? OR (d.updated_at = ? AND d.actor_id < ?)` against
`time.UnixMilli(cursor.UpdatedUnix)` and `cursor.ActorID`. -/
def beforeCursor (c : Cursor) (d : Decision) : Prop :=
  (d.updatedAt : Int) < c.updatedUnix ∨
    ((d.updatedAt : Int) = c.updatedUnix ∧ d.actorID < c.actorID)

instance (c : Cursor) (d : Decision) : Decidable (beforeCursor c d) := by
  unfold beforeCursor
  infer_instance

/-- The rows a list query ranges over for a decoded cursor: the
predicate's rows in `ORDER BY` order, restricted to strictly after the
cursor position — but only when the decoded cursor has a positive
`ActorID` and a positive `UpdatedUnix` (the guard in the Go code);
otherwise the position filter is not applied. -/
def qualifyingRows (tbl : Table) (rowPred : Decision → Bool) (c : Cursor) : List Decision :=
  let sorted := List.insertionSort likersOrder (tbl.filter rowPred)
  if 0 < c.actorID ∧ 0 < c.updatedUnix then
    sorted.filter (fun d => decide (beforeCursor c d))
  else sorted

/-- A zero `Decision`, the out parameter Go declares before scanning. -/
def zeroDecision : Decision :=
  ⟨0, 0, false, 0, 0⟩

/-- The page-building tail shared verbatim by `GetLikers` and
`GetNewLikers`: if more than `limit` rows were fetched, emit the token
`Encode{ActorID: last.ActorID, UpdatedUnix: last.UpdatedAt.UnixMilli()}`
built from `decisions[limit-1]` and return the first `limit` rows; the
index expression panics when `limit ≤ 0`. -/
def buildPage (fetched : List Decision) (limit : Int) :
    Except RepoError (List Decision × Option (List Nat)) :=
  if limit < (fetched.length : Int) then
    if 1 ≤ limit then
      let last := fetched.getD (limit - 1).toNat zeroDecision
      .ok (fetched.take limit.toNat, some (Encode ⟨last.actorID, (last.updatedAt : Int)⟩))
    else .error .outOfRange
  else .ok (fetched, none)

/-- Common body of the two list queries: decode the token (`nil` token
reads as the empty string), build the `WHERE`/`ORDER BY` row list, fetch
`LIMIT limit + 1` rows (gorm emits no LIMIT clause for a negative
argument), then build the page. -/
def runListQuery (tbl : Table) (rowPred : Decision → Bool) (token : Option (List Nat))
    (limit : Int) : Except RepoError (List Decision × Option (List Nat)) :=
  match Decode (token.getD []) with
  | .error _ => .error .invalidCursor
  | .ok c =>
    let positioned := qualifyingRows tbl rowPred c
    let fetched := if 0 ≤ limit + 1 then positioned.take (limit + 1).toNat else positioned
    buildPage fetched limit

/-- `DecisionRepository.GetLikers`. -/
def getLikers (tbl : Table) (recipientID : Nat) (token : Option (List Nat)) (limit : Int) :
    Except RepoError (List Decision × Option (List Nat)) :=
  runListQuery tbl (likerRow tbl recipientID) token limit

/-- `DecisionRepository.GetNewLikers`. -/
def getNewLikers (tbl : Table) (recipientID : Nat) (token : Option (List Nat)) (limit : Int) :
    Except RepoError (List Decision × Option (List Nat)) :=
  runListQuery tbl (newLikerRow tbl recipientID) token limit

/-- `DecisionRepository.CountLikers`: `COUNT` over the same predicate as
`GetLikers`. -/
def countLikers (tbl : Table) (recipientID : Nat) : Nat :=
  (tbl.filter (likerRow tbl recipientID)).length

/-- `DecisionRepository.HasLiked`: does a row `actor -> recipient` with
`liked = true` exist (`COUNT(...) > 0`). -/
def hasLiked (tbl : Table) (actorID recipientID : Nat) : Bool :=
  decide (0 < (tbl.filter fun d =>
    d.actorID == actorID && d.recipientID == recipientID && d.liked).length)

/-- `DecisionRepository.CreateOrUpdateDecision` (the live variant used by
the service and the tests): `INSERT ... ON CONFLICT (actor_id,
recipient_id) DO UPDATE SET liked = excluded.liked`.  A fresh row gets
`created_at = updated_at = now` (gorm `autoCreateTime`/`autoUpdateTime`
on insert); on conflict only the `liked` column is assigned — the
update-set lists `liked` alone, so the timestamps keep their stored
values. -/
def createOrUpdateDecision (tbl : Table) (actorID recipientID : Nat) (liked : Bool)
    (now : Nat) : Table :=
  if tbl.any (fun d => d.actorID == actorID && d.recipientID == recipientID) then
    tbl.map fun d =>
      if d.actorID == actorID && d.recipientID == recipientID then
        { d with liked := liked }
      else d
  else tbl ++ [⟨actorID, recipientID, liked, now, now⟩]

/-- The earlier `CreateOrUpdateDecision` variant (first copy in
decision_repo.go): `First` the existing row, insert when absent, and
`Save` the row with the new `liked` only when the value changed,
returning the previous `liked` (`nil` when the pair was unseen).  `Save`
writes every column and refreshes `updated_at` (`autoUpdateTime`),
keeping the fetched `created_at`. -/
def createOrUpdateDecisionPrev (tbl : Table) (actorID recipientID : Nat) (liked : Bool)
    (now : Nat) : Option Bool × Table :=
  match tbl.find? (fun d => d.actorID == actorID && d.recipientID == recipientID) with
  | none => (none, tbl ++ [⟨actorID, recipientID, liked, now, now⟩])
  | some d =>
    (some d.liked,
      if d.liked != liked then
        tbl.map fun e =>
          if e.actorID == actorID && e.recipientID == recipientID then
            { e with liked := liked, updatedAt := now }
          else e
      else tbl)

/-! ### Service layer (internal/service/explore/service.go)

Modelled after ID parsing (the `strconv.ParseUint` transport step) and
without the advisory Redis counter, which only the count endpoint
reads. -/

/-- `svcErr.InvalidArgument` as produced by the service validations. -/
inductive SvcError where
  | invalidArgument
deriving DecidableEq

/-- `Service.PutDecision`: reject a self-decision, upsert the row, then
— only when the decision is a like — ask `HasLiked(recipient, actor)`
for mutuality; a pass reports `MutualLikes = false` without the lookup. -/
def putDecision (tbl : Table) (actorID recipientID : Nat) (liked : Bool) (now : Nat) :
    Except SvcError (Table × Bool) :=
  if actorID == recipientID then .error .invalidArgument
  else
    let tbl2 := createOrUpdateDecision tbl actorID recipientID liked now
    let mutualLikes := if liked then hasLiked tbl2 recipientID actorID else false
    .ok (tbl2, mutualLikes)

/-- The page size `Service.ListLikedYou`/`ListNewLikedYou` pass to the
repository: the constant 5 — callers never supply a limit. -/
def listPageLimit : Int := 5

/-- `Service.ListLikedYou` after ID parsing. -/
def listLikedYou (tbl : Table) (recipientID : Nat) (token : Option (List Nat)) :
    Except RepoError (List Decision × Option (List Nat)) :=
  getLikers tbl recipientID token listPageLimit

/-- `Service.ListNewLikedYou` after ID parsing. -/
def listNewLikedYou (tbl : Table) (recipientID : Nat) (token : Option (List Nat)) :
    Except RepoError (List Decision × Option (List Nat)) :=
  getNewLikers tbl recipientID token listPageLimit

/-- Page through `GetLikers` over a fixed table, feeding each returned
token into the next call, concatenating the pages; `fuel` bounds the
number of calls (`none` when the loop has not finished within `fuel`
pages or a call fails). -/
def pageLoopLikers (tbl : Table) (recipientID : Nat) (limit : Int) :
    Option (List Nat) → Nat → Option (List Decision)
  | _, 0 => none
  | tok, fuel + 1 =>
    match getLikers tbl recipientID tok limit with
    | .error _ => none
    | .ok (rows, none) => some rows
    | .ok (rows, some t) =>
      (pageLoopLikers tbl recipientID limit (some t) fuel).map (fun tail => rows ++ tail)

end MuzzExplore

namespace MuzzExplore

/-! ### Ordering facts for pagination -/

/-- A decision list in strictly descending `(updated_at, actor_id)`
order — the shape a fully deterministic `ORDER BY ... DESC` result has
when no two rows share a sort key. -/
def strictDesc (l : List Decision) : Prop :=
  l.Pairwise fun a b => keyLt (key b) (key a)

theorem pairwise_and {α : Type} {R S : α → α → Prop} :
    ∀ {l : List α}, l.Pairwise R → l.Pairwise S → l.Pairwise fun a b => R a b ∧ S a b := by
  intro l hR hS
  induction l with
  | nil => exact List.Pairwise.nil
  | cons x xs ih =>
    rcases hR with _ | ⟨hRx, hRxs⟩
    rcases hS with _ | ⟨hSx, hSxs⟩
    exact List.Pairwise.cons (fun b hb => ⟨hRx b hb, hSx b hb⟩) (ih hRxs hSxs)

theorem keyLt_asymm {k1 k2 : Nat × Nat} (h : keyLt k1 k2) : ¬ keyLt k2 k1 := by
  unfold keyLt at h ⊢
  omega

theorem keyLt_irrefl (k : Nat × Nat) : ¬ keyLt k k := by
  unfold keyLt
  omega

theorem strictDesc_of_sorted {l : List Decision} (hs : List.Sorted likersOrder l)
    (hne : l.Pairwise fun a b => key a ≠ key b) : strictDesc l := by
  have := pairwise_and hs hne
  exact this.imp fun {a b} h => by
    rcases h with ⟨ho | ho, hne2⟩
    · exact ho
    · exact absurd ho.symm hne2

theorem strictDesc_cons_iff {x : Decision} {l : List Decision} :
    strictDesc (x :: l) ↔ (∀ y ∈ l, keyLt (key y) (key x)) ∧ strictDesc l := by
  unfold strictDesc
  exact List.pairwise_cons

/-- A cursor built from a row selects exactly the rows with a strictly
smaller sort key. -/
theorem beforeCursor_row (r d : Decision) :
    beforeCursor ⟨r.actorID, (r.updatedAt : Int)⟩ d ↔ keyLt (key d) (key r) := by
  unfold beforeCursor keyLt key
  simp only []
  omega

/-- In a strictly descending list, filtering to keys below the key of
the element at index `i` keeps exactly the suffix after `i`. -/
theorem filter_keyLt_strictDesc :
    ∀ {L : List Decision}, strictDesc L → ∀ i (hi : i < L.length),
      (L.filter fun d => decide (keyLt (key d) (key L[i]))) = L.drop (i + 1) := by
  intro L
  induction L with
  | nil => intro _ i hi; simp at hi
  | cons x l ih =>
    intro hsd i hi
    rcases strictDesc_cons_iff.mp hsd with ⟨hx, hl⟩
    cases i with
    | zero =>
      have hself : ¬ keyLt (key x) (key x) := keyLt_irrefl _
      simp only [List.getElem_cons_zero, List.filter_cons, List.drop_succ_cons, List.drop_zero]
      rw [if_neg (by simp [hself])]
      exact List.filter_eq_self.mpr fun y hy => by simp [hx y hy]
    | succ j =>
      have hj : j < l.length := by simpa using hi
      have hr : (x :: l)[j + 1] = l[j] := List.getElem_cons_succ ..
      rw [hr]
      have hxr : ¬ keyLt (key x) (key l[j]) :=
        keyLt_asymm (hx _ (List.getElem_mem hj))
      simp only [List.filter_cons]
      rw [if_neg (by simp [hxr])]
      rw [ih hl j hj]
      rfl

/-- The `ORDER BY` result list a query pages over when no cursor filter
applies: the predicate's rows, sorted. -/
def sortedRows (tbl : Table) (p : Decision → Bool) : List Decision :=
  List.insertionSort likersOrder (tbl.filter p)

theorem qualifyingRows_inactive {tbl : Table} {p : Decision → Bool} {c : Cursor}
    (h : ¬ (0 < c.actorID ∧ 0 < c.updatedUnix)) :
    qualifyingRows tbl p c = sortedRows tbl p := by
  unfold qualifyingRows sortedRows
  rw [if_neg h]

theorem qualifyingRows_active {tbl : Table} {p : Decision → Bool} {c : Cursor}
    (h : 0 < c.actorID ∧ 0 < c.updatedUnix) :
    qualifyingRows tbl p c = (sortedRows tbl p).filter fun d => decide (beforeCursor c d) := by
  unfold qualifyingRows sortedRows
  rw [if_pos h]

/-- The token state after `i` rows of a fixed row list `L` have been
consumed: absent at the start, afterwards the encoded key of row
`i - 1` (the last row the previous page returned). -/
def tokOf (L : List Decision) (i : Nat) : Option (List Nat) :=
  if i = 0 then none
  else
    match L[i - 1]? with
    | some r => some (Encode ⟨r.actorID, (r.updatedAt : Int)⟩)
    | none => none

theorem buildPage_take {L : List Decision} {i K : Nat} (hK : 1 ≤ K) (hi : i ≤ L.length) :
    buildPage ((L.drop i).take (K + 1)) (K : Int) =
      (if L.length ≤ i + K then .ok (L.drop i, none)
       else .ok ((L.drop i).take K, tokOf L (i + K))) := by
  by_cases hcase : L.length ≤ i + K
  · rw [if_pos hcase]
    have hlen : (L.drop i).length ≤ K + 1 := by
      rw [List.length_drop]
      omega
    rw [List.take_of_length_le hlen]
    unfold buildPage
    rw [if_neg (by rw [List.length_drop]; omega)]
  · rw [if_neg hcase]
    push_neg at hcase
    have htake : ((L.drop i).take (K + 1)).length = K + 1 := by
      rw [List.length_take, List.length_drop]
      omega
    unfold buildPage
    rw [if_pos (by rw [htake]; omega)]
    rw [if_pos (by omega)]
    have hidx : (((K : Nat) : Int) - 1).toNat = K - 1 := by omega
    rw [hidx]
    have hgd : ((L.drop i).take (K + 1)).getD (K - 1) zeroDecision =
        L.getD (i + K - 1) zeroDecision := by
      rw [List.getD_eq_getElem?_getD, List.getD_eq_getElem?_getD,
        List.getElem?_take_of_lt (show K - 1 < K + 1 by omega), List.getElem?_drop]
      rw [show i + (K - 1) = i + K - 1 from by omega]
    rw [hgd]
    have htok : tokOf L (i + K) =
        some (Encode ⟨(L.getD (i + K - 1) zeroDecision).actorID,
          ((L.getD (i + K - 1) zeroDecision).updatedAt : Int)⟩) := by
      unfold tokOf
      rw [if_neg (by omega)]
      rw [List.getElem?_eq_getElem (show i + K - 1 < L.length by omega)]
      rw [List.getD_eq_getElem L zeroDecision (show i + K - 1 < L.length by omega)]
    rw [htok]
    have hKt : ((K : Nat) : Int).toNat = K := by omega
    rw [hKt, List.take_take]
    have hmin : min K (K + 1) = K := by omega
    rw [hmin]

theorem runListQuery_step (tbl : Table) (p : Decision → Bool) (K i : Nat)
    (hK : 1 ≤ K)
    (hpos : ∀ d ∈ sortedRows tbl p, 0 < d.actorID ∧ 0 < d.updatedAt)
    (hsd : strictDesc (sortedRows tbl p))
    (hi : i ≤ (sortedRows tbl p).length) :
    runListQuery tbl p (tokOf (sortedRows tbl p) i) (K : Int) =
      (if (sortedRows tbl p).length ≤ i + K then .ok ((sortedRows tbl p).drop i, none)
       else .ok (((sortedRows tbl p).drop i).take K, tokOf (sortedRows tbl p) (i + K))) := by
  have hfetch : ∀ rows : List Decision,
      (if (0 : Int) ≤ (K : Int) + 1 then rows.take ((K : Int) + 1).toNat else rows) =
        rows.take (K + 1) := by
    intro rows
    rw [if_pos (by omega)]
    have ht : ((K : Int) + 1).toNat = K + 1 := by omega
    rw [ht]
  cases i with
  | zero =>
    have htok : tokOf (sortedRows tbl p) 0 = none := by
      unfold tokOf
      rw [if_pos rfl]
    rw [htok]
    unfold runListQuery
    have hdec : Decode ((none : Option (List Nat)).getD []) = .ok ⟨0, 0⟩ := rfl
    rw [hdec]
    simp only []
    rw [qualifyingRows_inactive (by simp)]
    rw [hfetch]
    have hbp := buildPage_take (L := sortedRows tbl p) (i := 0) hK (by omega)
    rw [List.drop_zero] at hbp
    rw [hbp]
    simp
  | succ j =>
    have hj : j < (sortedRows tbl p).length := by omega
    set r := (sortedRows tbl p)[j] with hr
    have htok : tokOf (sortedRows tbl p) (j + 1) =
        some (Encode ⟨r.actorID, (r.updatedAt : Int)⟩) := by
      unfold tokOf
      rw [if_neg (by omega)]
      have hj1 : j + 1 - 1 = j := by omega
      rw [hj1, List.getElem?_eq_getElem hj]
    rw [htok]
    unfold runListQuery
    have hdec : Decode ((some (Encode ⟨r.actorID, (r.updatedAt : Int)⟩)).getD []) =
        .ok ⟨r.actorID, (r.updatedAt : Int)⟩ := by
      simp only [Option.getD_some]
      exact Decode_Encode _
    rw [hdec]
    simp only []
    have hrpos := hpos r (List.getElem_mem hj)
    rw [qualifyingRows_active
      ⟨hrpos.1, by show (0 : Int) < (r.updatedAt : Int); omega⟩]
    have hfilter : ((sortedRows tbl p).filter fun d =>
        decide (beforeCursor ⟨r.actorID, (r.updatedAt : Int)⟩ d)) =
        (sortedRows tbl p).drop (j + 1) := by
      rw [List.filter_congr (fun d _ => by
        show decide (beforeCursor ⟨r.actorID, (r.updatedAt : Int)⟩ d) =
          decide (keyLt (key d) (key r))
        simp only [decide_eq_decide]
        exact beforeCursor_row r d)]
      exact filter_keyLt_strictDesc hsd j hj
    rw [hfilter, hfetch]
    exact buildPage_take hK hi

theorem pageLoopLikers_drop (tbl : Table) (recipientID K : Nat) (hK : 1 ≤ K)
    (hpos : ∀ d ∈ sortedRows tbl (likerRow tbl recipientID), 0 < d.actorID ∧ 0 < d.updatedAt)
    (hsd : strictDesc (sortedRows tbl (likerRow tbl recipientID))) :
    ∀ fuel i, i ≤ (sortedRows tbl (likerRow tbl recipientID)).length →
      (sortedRows tbl (likerRow tbl recipientID)).length - i < fuel →
      pageLoopLikers tbl recipientID (K : Int)
          (tokOf (sortedRows tbl (likerRow tbl recipientID)) i) fuel =
        some ((sortedRows tbl (likerRow tbl recipientID)).drop i) := by
  intro fuel
  induction fuel with
  | zero =>
    intro i hi hf
    omega
  | succ fuel ih =>
    intro i hi hf
    show (match getLikers tbl recipientID
        (tokOf (sortedRows tbl (likerRow tbl recipientID)) i) (K : Int) with
      | .error _ => none
      | .ok (rows, none) => some rows
      | .ok (rows, some t) =>
        (pageLoopLikers tbl recipientID (K : Int) (some t) fuel).map
          fun tail => rows ++ tail) = some ((sortedRows tbl (likerRow tbl recipientID)).drop i)
    have hstep := runListQuery_step tbl (likerRow tbl recipientID) K i hK hpos hsd hi
    rw [show getLikers tbl recipientID (tokOf (sortedRows tbl (likerRow tbl recipientID)) i)
        (K : Int) =
        runListQuery tbl (likerRow tbl recipientID)
          (tokOf (sortedRows tbl (likerRow tbl recipientID)) i) (K : Int) from rfl]
    rw [hstep]
    by_cases hcase : (sortedRows tbl (likerRow tbl recipientID)).length ≤ i + K
    · rw [if_pos hcase]
    · rw [if_neg hcase]
      obtain ⟨tk, htk⟩ : ∃ tk, tokOf (sortedRows tbl (likerRow tbl recipientID)) (i + K) =
          some tk := by
        unfold tokOf
        rw [if_neg (by omega)]
        rw [List.getElem?_eq_getElem
          (by omega : i + K - 1 < (sortedRows tbl (likerRow tbl recipientID)).length)]
        exact ⟨_, rfl⟩
      rw [htk]
      show Option.map
          (fun tail => ((sortedRows tbl (likerRow tbl recipientID)).drop i).take K ++ tail)
          (pageLoopLikers tbl recipientID (K : Int) (some tk) fuel) =
        some ((sortedRows tbl (likerRow tbl recipientID)).drop i)
      rw [← htk, ih (i + K) (by omega) (by omega)]
      have hdd : (sortedRows tbl (likerRow tbl recipientID)).drop (i + K) =
          ((sortedRows tbl (likerRow tbl recipientID)).drop i).drop K := by
        rw [List.drop_drop]
      show some (((sortedRows tbl (likerRow tbl recipientID)).drop i).take K ++
          (sortedRows tbl (likerRow tbl recipientID)).drop (i + K)) =
        some ((sortedRows tbl (likerRow tbl recipientID)).drop i)
      rw [hdd, List.take_append_drop]

/-! ### Upsert facts -/

/-- The rows of the ordered pair `(a, b)`. -/
def rowsFor (tbl : Table) (a b : Nat) : List Decision :=
  tbl.filter fun d => d.actorID == a && d.recipientID == b

/-- The table invariant the composite primary key enforces: at most one
row per ordered `(actor, recipient)` pair. -/
def PairUnique (tbl : Table) : Prop :=
  tbl.Pairwise fun d e => d.actorID ≠ e.actorID ∨ d.recipientID ≠ e.recipientID

instance (tbl : Table) : Decidable (PairUnique tbl) := by
  unfold PairUnique
  exact List.instDecidablePairwise tbl

/-- Run a sequence of upserts `(actor, recipient, liked, now)` from the
empty table. -/
def upsertAll (ops : List (Nat × Nat × Bool × Nat)) : Table :=
  ops.foldl (fun tbl op => createOrUpdateDecision tbl op.1 op.2.1 op.2.2.1 op.2.2.2) []

theorem upsert_of_absent {tbl : Table} {A B : Nat} (v : Bool) (t : Nat)
    (habs : rowsFor tbl A B = []) :
    createOrUpdateDecision tbl A B v t = tbl ++ [⟨A, B, v, t, t⟩] := by
  unfold createOrUpdateDecision
  rw [if_neg]
  intro hany
  rw [List.any_eq_true] at hany
  obtain ⟨d, hd, hpd⟩ := hany
  have : d ∈ rowsFor tbl A B := List.mem_filter.mpr ⟨hd, hpd⟩
  rw [habs] at this
  simp at this

theorem rowsFor_append (tbl1 tbl2 : Table) (a b : Nat) :
    rowsFor (tbl1 ++ tbl2) a b = rowsFor tbl1 a b ++ rowsFor tbl2 a b :=
  List.filter_append ..

theorem upsert_of_present {tbl : Table} {A B : Nat} {r : Decision} (v : Bool) (t : Nat)
    (hr : rowsFor tbl A B = [r]) :
    rowsFor (createOrUpdateDecision tbl A B v t) A B = [{ r with liked := v }] := by
  have hmem : r ∈ rowsFor tbl A B := by rw [hr]; simp
  have hrP := List.mem_filter.mp hmem
  unfold createOrUpdateDecision
  rw [if_pos (List.any_eq_true.mpr ⟨r, hrP.1, hrP.2⟩)]
  unfold rowsFor
  rw [List.filter_map]
  have hcong : ∀ d ∈ tbl,
      ((fun d : Decision => d.actorID == A && d.recipientID == B) ∘
        fun d : Decision =>
          if d.actorID == A && d.recipientID == B then { d with liked := v } else d) d =
      (fun d : Decision => d.actorID == A && d.recipientID == B) d := by
    intro d _
    by_cases hd : d.actorID == A && d.recipientID == B
    · simp only [Function.comp_apply, if_pos hd]
    · simp only [Function.comp_apply, if_neg hd]
  rw [List.filter_congr hcong]
  show List.map _ (rowsFor tbl A B) = _
  rw [hr]
  have hc := hrP.2
  simp only [Bool.and_eq_true, beq_iff_eq] at hc
  simp [hc.1, hc.2]

theorem pairUnique_upsert {tbl : Table} (A B : Nat) (v : Bool) (t : Nat)
    (hu : PairUnique tbl) : PairUnique (createOrUpdateDecision tbl A B v t) := by
  unfold createOrUpdateDecision
  by_cases hex : tbl.any fun d => d.actorID == A && d.recipientID == B
  · rw [if_pos hex]
    unfold PairUnique
    rw [List.pairwise_map]
    refine hu.imp fun {d e} h => ?_
    by_cases hd : d.actorID == A && d.recipientID == B <;>
      by_cases he : e.actorID == A && e.recipientID == B <;>
      simp only [if_pos, if_neg, hd, he, ite_true, ite_false] <;>
      exact h
  · rw [if_neg hex]
    unfold PairUnique
    rw [List.pairwise_append]
    refine ⟨hu, List.pairwise_singleton .., ?_⟩
    intro d hd x hx
    simp only [List.mem_singleton] at hx
    subst hx
    have : ¬ (d.actorID == A && d.recipientID == B) := by
      intro hpd
      exact hex (List.any_eq_true.mpr ⟨d, hd, hpd⟩)
    simp only [Bool.and_eq_true, beq_iff_eq] at this
    show d.actorID ≠ A ∨ d.recipientID ≠ B
    tauto

theorem pairUnique_upsertAll (ops : List (Nat × Nat × Bool × Nat)) :
    PairUnique (upsertAll ops) := by
  unfold upsertAll
  have hgen : ∀ (l : List (Nat × Nat × Bool × Nat)) (tbl : Table), PairUnique tbl →
      PairUnique (l.foldl
        (fun tbl op => createOrUpdateDecision tbl op.1 op.2.1 op.2.2.1 op.2.2.2) tbl) := by
    intro l
    induction l with
    | nil => intro tbl h; exact h
    | cons op ops ih =>
      intro tbl h
      exact ih _ (pairUnique_upsert _ _ _ _ h)
  exact hgen ops [] List.Pairwise.nil

/-- An upsert of the pair `(A, B)` with `A ≠ B` does not change the
existence of a like `(B, A)` — the row the mutuality check reads. -/
theorem hasLiked_upsert_ne {tbl : Table} {A B : Nat} (v : Bool) (t : Nat) (hne : A ≠ B) :
    hasLiked (createOrUpdateDecision tbl A B v t) B A = hasLiked tbl B A := by
  unfold hasLiked createOrUpdateDecision
  by_cases hex : tbl.any fun d => d.actorID == A && d.recipientID == B
  · rw [if_pos hex]
    congr 2
    rw [List.filter_map]
    have hcong : ∀ d ∈ tbl,
        ((fun d : Decision => d.actorID == B && d.recipientID == A && d.liked) ∘
          fun d : Decision =>
            if d.actorID == A && d.recipientID == B then { d with liked := v } else d) d =
        (fun d : Decision => d.actorID == B && d.recipientID == A && d.liked) d := by
      intro d _
      by_cases hd : d.actorID == A && d.recipientID == B
      · simp only [Bool.and_eq_true, beq_iff_eq] at hd
        have hAB : (A == B) = false := by
          simp only [beq_eq_false_iff_ne, ne_eq]
          exact hne
        simp [Function.comp_apply, hd, hAB]
      · simp only [Function.comp_apply, if_neg hd]
    rw [List.filter_congr hcong]
    have hid : ∀ d ∈ tbl.filter
        (fun d : Decision => d.actorID == B && d.recipientID == A && d.liked),
        (fun d : Decision =>
          if d.actorID == A && d.recipientID == B then { d with liked := v } else d) d = d := by
      intro d hd
      have hdP := (List.mem_filter.mp hd).2
      simp only [Bool.and_eq_true, beq_iff_eq] at hdP
      have hcond : ¬ ((d.actorID == A && d.recipientID == B) = true) := by
        simp only [Bool.and_eq_true, beq_iff_eq]
        intro h
        exact hne (by omega)
      simp [hcond]
    rw [List.map_congr_left hid]
    simp
  · rw [if_neg hex]
    congr 2
    rw [List.filter_append]
    have : (([⟨A, B, v, t, t⟩] : Table).filter
        fun d => d.actorID == B && d.recipientID == A && d.liked) = [] := by
      simp only [List.filter_cons, List.filter_nil]
      rw [if_neg]
      simp only [Bool.and_eq_true, beq_iff_eq]
      intro h
      exact hne (by omega)
    rw [this, List.append_nil]

theorem hasLiked_iff (tbl : Table) (a b : Nat) :
    hasLiked tbl a b = true ↔ ∃ d ∈ tbl, d.actorID = a ∧ d.recipientID = b ∧ d.liked = true := by
  unfold hasLiked
  rw [decide_eq_true_eq, List.length_pos_iff_exists_mem]
  constructor
  · rintro ⟨d, hd⟩
    have := List.mem_filter.mp hd
    refine ⟨d, this.1, ?_⟩
    have h2 := this.2
    simp only [Bool.and_eq_true, beq_iff_eq] at h2
    tauto
  · rintro ⟨d, hd, h1, h2, h3⟩
    exact ⟨d, List.mem_filter.mpr ⟨hd, by simp [h1, h2, h3]⟩⟩

theorem mem_sortedRows {tbl : Table} {p : Decision → Bool} {d : Decision} :
    d ∈ sortedRows tbl p ↔ d ∈ tbl.filter p := by
  unfold sortedRows
  exact (List.perm_insertionSort likersOrder _).mem_iff

theorem strictDesc_sortedRows {tbl : Table} {p : Decision → Bool}
    (hdist : (tbl.filter p).Pairwise fun a b => a.actorID ≠ b.actorID) :
    strictDesc (sortedRows tbl p) := by
  have hsorted : List.Sorted likersOrder (sortedRows tbl p) :=
    List.sorted_insertionSort likersOrder _
  have hperm := List.perm_insertionSort likersOrder (tbl.filter p)
  have hd2 : (sortedRows tbl p).Pairwise fun a b => a.actorID ≠ b.actorID :=
    (hperm.pairwise_iff fun h => Ne.symm h).mpr hdist
  have hne : (sortedRows tbl p).Pairwise fun a b => key a ≠ key b :=
    hd2.imp fun {a b} h hk => h (congrArg Prod.snd hk)
  exact strictDesc_of_sorted hsorted hne

theorem buildPage_rows {fetched : List Decision} {lim : Int} {rows : List Decision}
    {next : Option (List Nat)} (h : buildPage fetched lim = .ok (rows, next)) :
    ∀ d ∈ rows, d ∈ fetched := by
  unfold buildPage at h
  by_cases h1 : lim < (fetched.length : Int)
  · rw [if_pos h1] at h
    by_cases h2 : 1 ≤ lim
    · rw [if_pos h2] at h
      simp only [Except.ok.injEq, Prod.mk.injEq] at h
      intro d hd
      rw [← h.1] at hd
      exact List.take_subset _ _ hd
    · rw [if_neg h2] at h
      simp at h
  · rw [if_neg h1] at h
    simp only [Except.ok.injEq, Prod.mk.injEq] at h
    intro d hd
    rw [← h.1] at hd
    exact hd

theorem runListQuery_sound {tbl : Table} {p : Decision → Bool} {tok : Option (List Nat)}
    {lim : Int} {rows : List Decision} {next : Option (List Nat)}
    (h : runListQuery tbl p tok lim = .ok (rows, next)) :
    ∀ d ∈ rows, d ∈ tbl.filter p := by
  unfold runListQuery at h
  cases hdec : Decode (tok.getD []) with
  | error e =>
    rw [hdec] at h
    simp at h
  | ok c =>
    rw [hdec] at h
    intro d hd
    have h1 : d ∈ (if (0 : Int) ≤ lim + 1 then
        (qualifyingRows tbl p c).take (lim + 1).toNat else qualifyingRows tbl p c) :=
      buildPage_rows h d hd
    have h2 : d ∈ qualifyingRows tbl p c := by
      by_cases hc : (0 : Int) ≤ lim + 1
      · rw [if_pos hc] at h1
        exact List.take_subset _ _ h1
      · rw [if_neg hc] at h1
        exact h1
    have h3 : d ∈ sortedRows tbl p := by
      by_cases hact : 0 < c.actorID ∧ 0 < c.updatedUnix
      · rw [qualifyingRows_active hact] at h2
        exact List.mem_of_mem_filter h2
      · rw [qualifyingRows_inactive hact] at h2
        exact h2
    exact mem_sortedRows.mp h3

theorem likerRow_iff (tbl : Table) (R : Nat) (d : Decision) :
    likerRow tbl R d = true ↔
      d.recipientID = R ∧ d.liked = true ∧
        ¬ ∃ d2 ∈ tbl, d2.actorID = R ∧ d2.recipientID = d.actorID ∧ d2.liked = false := by
  unfold likerRow
  simp only [Bool.and_eq_true, beq_iff_eq, Bool.not_eq_true', List.any_eq_false,
    Bool.and_eq_false_iff]
  constructor
  · rintro ⟨⟨h1, h2⟩, h3⟩
    refine ⟨h1, h2, ?_⟩
    rintro ⟨d2, hd2, ha, hr, hl⟩
    exact h3 d2 hd2 ⟨⟨ha, hr⟩, hl⟩
  · rintro ⟨h1, h2, h3⟩
    refine ⟨⟨h1, h2⟩, ?_⟩
    intro d2 hd2
    rintro ⟨⟨ha, hr⟩, hl⟩
    exact h3 ⟨d2, hd2, ha, hr, hl⟩

theorem newLikerRow_iff (tbl : Table) (R : Nat) (d : Decision) :
    newLikerRow tbl R d = true ↔
      likerRow tbl R d = true ∧
        ¬ ∃ m ∈ tbl, m.actorID = d.recipientID ∧ m.recipientID = d.actorID ∧
          m.liked = true := by
  unfold newLikerRow likerRow
  simp only [Bool.and_eq_true, beq_iff_eq, Bool.not_eq_true', List.any_eq_false,
    Bool.and_eq_false_iff]
  constructor
  · rintro ⟨⟨⟨h1, h2⟩, hm⟩, h3⟩
    refine ⟨⟨⟨h1, h2⟩, h3⟩, ?_⟩
    rintro ⟨m, hmem, ha, hr, hl⟩
    exact hm m hmem ⟨⟨ha, hr⟩, hl⟩
  · rintro ⟨⟨⟨h1, h2⟩, h3⟩, hm⟩
    refine ⟨⟨⟨h1, h2⟩, ?_⟩, h3⟩
    intro m hmem
    rintro ⟨⟨ha, hr⟩, hl⟩
    exact hm ⟨m, hmem, ha, hr, hl⟩

theorem runListQuery_paging (tbl : Table) (p : Decision → Bool) (tok : Option (List Nat))
    (lim : Int) (c : Cursor) (hdec : Decode (tok.getD []) = .ok c) (hlim : 1 ≤ lim) :
    runListQuery tbl p tok lim =
      (if lim < ((qualifyingRows tbl p c).length : Int) then
        .ok ((qualifyingRows tbl p c).take lim.toNat,
          some (Encode ⟨((qualifyingRows tbl p c).getD (lim - 1).toNat zeroDecision).actorID,
            (((qualifyingRows tbl p c).getD (lim - 1).toNat zeroDecision).updatedAt : Int)⟩))
      else .ok (qualifyingRows tbl p c, none)) := by
  unfold runListQuery
  rw [hdec]
  show (let fetched := if (0 : Int) ≤ lim + 1 then
      (qualifyingRows tbl p c).take (lim + 1).toNat else qualifyingRows tbl p c
    buildPage fetched lim) = _
  rw [if_pos (show (0 : Int) ≤ lim + 1 by omega)]
  by_cases hcase : lim < ((qualifyingRows tbl p c).length : Int)
  · rw [if_pos hcase]
    have hlenf : ((qualifyingRows tbl p c).take (lim + 1).toNat).length = (lim + 1).toNat := by
      rw [List.length_take]
      omega
    show buildPage _ lim = _
    unfold buildPage
    rw [if_pos (by rw [hlenf]; omega)]
    rw [if_pos hlim]
    have hidx : (lim - 1).toNat < (lim + 1).toNat := by omega
    have hgd : ((qualifyingRows tbl p c).take (lim + 1).toNat).getD (lim - 1).toNat
        zeroDecision = (qualifyingRows tbl p c).getD (lim - 1).toNat zeroDecision := by
      rw [List.getD_eq_getElem?_getD, List.getD_eq_getElem?_getD,
        List.getElem?_take_of_lt hidx]
    rw [hgd, List.take_take]
    have hmin : min lim.toNat (lim + 1).toNat = lim.toNat := by omega
    rw [hmin]
  · rw [if_neg hcase]
    have hle : (qualifyingRows tbl p c).length ≤ (lim + 1).toNat := by omega
    rw [List.take_of_length_le hle]
    show buildPage _ lim = _
    unfold buildPage
    rw [if_neg hcase]

/-- The page-shape properties claim C4 asserts, for one list query over
predicate `p`. -/
theorem listQuery_paging_props (tbl : Table) (p : Decision → Bool) (tok : Option (List Nat))
    (lim : Int) (c : Cursor) (hdec : Decode (tok.getD []) = .ok c) (hlim : 1 ≤ lim) :
    ∃ rows next, runListQuery tbl p tok lim = .ok (rows, next) ∧
      (((qualifyingRows tbl p c).take (lim + 1).toNat).length : Int) ≤ lim + 1 ∧
      (rows.length : Int) ≤ lim ∧
      (next = none ↔ ((qualifyingRows tbl p c).length : Int) ≤ lim) ∧
      (((qualifyingRows tbl p c).length : Int) ≤ lim → rows = qualifyingRows tbl p c) ∧
      (lim < ((qualifyingRows tbl p c).length : Int) →
        rows = (qualifyingRows tbl p c).take lim.toNat ∧
        next = some (Encode
          ⟨((qualifyingRows tbl p c).getD (lim - 1).toNat zeroDecision).actorID,
            (((qualifyingRows tbl p c).getD (lim - 1).toNat zeroDecision).updatedAt : Int)⟩) ∧
        rows.getD (lim.toNat - 1) zeroDecision =
          (qualifyingRows tbl p c).getD (lim - 1).toNat zeroDecision) := by
  rw [runListQuery_paging tbl p tok lim c hdec hlim]
  have hfetch : (((qualifyingRows tbl p c).take (lim + 1).toNat).length : Int) ≤ lim + 1 := by
    rw [List.length_take]
    omega
  by_cases hcase : lim < ((qualifyingRows tbl p c).length : Int)
  · rw [if_pos hcase]
    refine ⟨_, _, rfl, hfetch, ?_, ?_, ?_, ?_⟩
    · rw [List.length_take]
      omega
    · constructor
      · intro h
        simp at h
      · intro h
        omega
    · intro h
      omega
    · intro _
      refine ⟨rfl, rfl, ?_⟩
      have hidx : lim.toNat - 1 < lim.toNat := by omega
      rw [List.getD_eq_getElem?_getD, List.getD_eq_getElem?_getD,
        List.getElem?_take_of_lt hidx]
      have heq : lim.toNat - 1 = (lim - 1).toNat := by omega
      rw [heq]
  · rw [if_neg hcase]
    refine ⟨_, _, rfl, hfetch, by omega, ?_, fun _ => rfl, fun h => absurd h hcase⟩
    constructor
    · intro _
      omega
    · intro _
      rfl

/-! ### Claims -/

/-- Claim C1 (amended): for every actor `A`, recipient `B` and boolean
`v`, the decision upsert on a pair-unique table inserts exactly one row
`(A, B, v)` with `created_at = updated_at = now` when the pair is
unseen; when an `(A, B)` row exists it leaves exactly one `(A, B)` row
whose `liked` equals `v` and whose `created_at` **and `updated_at`** are
both unchanged from the original insert (the `ON CONFLICT` update-set
assigns only `liked`, so `updated_at` is *not* bumped); after any
sequence of upserts at most one row per ordered pair exists. -/
theorem claim1_upsert_semantics (tbl : Table) (A B : Nat) (v : Bool) (t : Nat)
    (hu : PairUnique tbl) :
    (rowsFor tbl A B = [] →
      createOrUpdateDecision tbl A B v t = tbl ++ [⟨A, B, v, t, t⟩] ∧
      rowsFor (createOrUpdateDecision tbl A B v t) A B = [⟨A, B, v, t, t⟩]) ∧
    (∀ r, rowsFor tbl A B = [r] →
      rowsFor (createOrUpdateDecision tbl A B v t) A B = [{ r with liked := v }]) ∧
    PairUnique (createOrUpdateDecision tbl A B v t) ∧
    ∀ ops : List (Nat × Nat × Bool × Nat), PairUnique (upsertAll ops) := by
  refine ⟨?_, ?_, pairUnique_upsert A B v t hu, pairUnique_upsertAll⟩
  · intro habs
    refine ⟨upsert_of_absent v t habs, ?_⟩
    rw [upsert_of_absent v t habs, rowsFor_append, habs]
    unfold rowsFor
    simp
  · intro r hr
    exact upsert_of_present v t hr

theorem claim1_upsert_semantics_witness :
    rowsFor (createOrUpdateDecision [] 1 2 true 7) 1 2 = [⟨1, 2, true, 7, 7⟩] :=
  ((claim1_upsert_semantics [] 1 2 true 7 (by decide)).1 rfl).2

/-- Claim C1, counterexample to the claim as stated: actor 1 decides on
recipient 2 at time 10, then again (a pass) at time 20.  The single
resulting row keeps `updated_at = 10`: the upsert does **not** bump
`updated_at` to the time of the second call, because the `ON CONFLICT`
update-set lists only the `liked` column. -/
theorem claim1_counterexample :
    createOrUpdateDecision (createOrUpdateDecision [] 1 2 true 10) 1 2 false 20 =
      [⟨1, 2, false, 10, 10⟩] ∧
    (⟨1, 2, false, 10, 10⟩ : Decision).updatedAt ≠ 20 :=
  ⟨rfl, by decide⟩

/-- Claim C5: for valid `A ≠ B`, `PutDecision(A, B, liked)` succeeds
with the upserted store; it reports `mutual = true` exactly when a row
`(B → A, liked = true)` exists in the store at the time of the check
(which, the upsert touching only the `(A, B)` pair, holds iff it existed
before the call); with `liked = false` it always reports
`mutual = false`. -/
theorem claim5_mutuality (tbl : Table) (A B : Nat) (v : Bool) (t : Nat) (hne : A ≠ B) :
    putDecision tbl A B v t = .ok (createOrUpdateDecision tbl A B v t,
      v && hasLiked (createOrUpdateDecision tbl A B v t) B A) ∧
    (hasLiked (createOrUpdateDecision tbl A B v t) B A = true ↔
      ∃ d ∈ createOrUpdateDecision tbl A B v t,
        d.actorID = B ∧ d.recipientID = A ∧ d.liked = true) ∧
    hasLiked (createOrUpdateDecision tbl A B v t) B A = hasLiked tbl B A ∧
    (v = false → putDecision tbl A B v t = .ok (createOrUpdateDecision tbl A B v t, false)) := by
  have hbe : ¬ ((A == B) = true) := by
    simp only [beq_iff_eq]
    exact hne
  refine ⟨?_, hasLiked_iff .., hasLiked_upsert_ne v t hne, ?_⟩
  · unfold putDecision
    rw [if_neg hbe]
    cases v <;> rfl
  · intro hv
    subst hv
    unfold putDecision
    rw [if_neg hbe]
    rfl

theorem claim5_mutuality_witness :
    putDecision [⟨2, 1, true, 3, 3⟩] 1 2 true 9 =
      .ok (createOrUpdateDecision [⟨2, 1, true, 3, 3⟩] 1 2 true 9,
        true && hasLiked (createOrUpdateDecision [⟨2, 1, true, 3, 3⟩] 1 2 true 9) 2 1) :=
  (claim5_mutuality [⟨2, 1, true, 3, 3⟩] 1 2 true 9 (by decide)).1

/-- Claim C7: the (previous-value returning) decision upsert returns the
previous `liked` value of the `(actor, recipient)` pair when the pair
already existed, and an absent value (`nil`) when the pair was unseen. -/
theorem claim7_upsert_returns_previous (tbl : Table) (A B : Nat) (v : Bool) (t : Nat) :
    ((createOrUpdateDecisionPrev tbl A B v t).1 = none ↔ rowsFor tbl A B = []) ∧
    ∀ r, tbl.find? (fun d => d.actorID == A && d.recipientID == B) = some r →
      (createOrUpdateDecisionPrev tbl A B v t).1 = some r.liked := by
  unfold createOrUpdateDecisionPrev
  cases hf : tbl.find? fun d => d.actorID == A && d.recipientID == B with
  | none =>
    refine ⟨⟨fun _ => ?_, fun _ => rfl⟩, fun r hr => by simp at hr⟩
    unfold rowsFor
    rw [List.filter_eq_nil_iff]
    exact List.find?_eq_none.mp hf
  | some r0 =>
    have hmem : r0 ∈ tbl := List.mem_of_find?_eq_some hf
    have hpred := List.find?_some hf
    refine ⟨⟨fun h => ?_, fun h => ?_⟩, fun r hr => ?_⟩
    · simp at h
    · exfalso
      have hmm : r0 ∈ rowsFor tbl A B := List.mem_filter.mpr ⟨hmem, hpred⟩
      rw [h] at hmm
      simp at hmm
    · injection hr with hr2
      rw [← hr2]

theorem claim7_upsert_returns_previous_witness :
    (createOrUpdateDecisionPrev [⟨1, 2, true, 3, 3⟩] 1 2 false 9).1 = some true :=
  (claim7_upsert_returns_previous [⟨1, 2, true, 3, 3⟩] 1 2 false 9).2 ⟨1, 2, true, 3, 3⟩ rfl

/-- Claim C8: `Decode (Encode c)` succeeds and returns `c` exactly for
every cursor; `Decode` of the empty token succeeds with the zero cursor
(first page); a token that does not base64-decode, or whose bytes do not
parse as a JSON cursor object, yields the `invalid pagination token`
error — and that is the only error `Decode` ever produces. -/
theorem claim8_codec_roundtrip :
    (∀ c : Cursor, Decode (Encode c) = .ok c) ∧
    Decode [] = .ok ⟨0, 0⟩ ∧
    (∀ t : List Nat, t ≠ [] → b64Decode t = none → Decode t = .error .invalid) ∧
    (∀ t bs, t ≠ [] → b64Decode t = some bs → parseCursorJson bs = none →
      Decode t = .error .invalid) ∧
    (∀ t e, Decode t = .error e → e = .invalid) := by
  refine ⟨Decode_Encode, rfl, ?_, ?_, ?_⟩
  · intro t ht hb
    unfold Decode
    rw [if_neg ht, hb]
  · intro t bs ht hb hp
    unfold Decode
    rw [if_neg ht, hb]
    show (match parseCursorJson bs with
      | none => (Except.error CursorError.invalid : Except CursorError Cursor)
      | some c => Except.ok c) = Except.error CursorError.invalid
    rw [hp]
  · intro t e _
    cases e
    rfl

theorem claim8_codec_roundtrip_witness :
    Decode (Encode ⟨2, 5⟩) = .ok ⟨2, 5⟩ ∧ Decode [33] = .error .invalid :=
  ⟨claim8_codec_roundtrip.1 ⟨2, 5⟩,
    claim8_codec_roundtrip.2.2.1 [33] (by decide) rfl⟩

/-- Claim C10: a non-empty token that decodes to a cursor whose
`ActorID` is 0 or whose `UpdatedUnix` is not strictly positive disables
the position filter in both list queries: the call returns exactly the
page an absent token would (it restarts from the top rather than
failing or resuming). -/
theorem claim10_degenerate_cursor (tbl : Table) (R : Nat) (lim : Int) (tok : List Nat)
    (c : Cursor) (hdec : Decode tok = .ok c)
    (hdeg : c.actorID = 0 ∨ c.updatedUnix ≤ 0) :
    getLikers tbl R (some tok) lim = getLikers tbl R none lim ∧
    getNewLikers tbl R (some tok) lim = getNewLikers tbl R none lim := by
  have hgen : ∀ p : Decision → Bool,
      runListQuery tbl p (some tok) lim = runListQuery tbl p none lim := by
    intro p
    unfold runListQuery
    rw [show (some tok).getD [] = tok from rfl, hdec]
    rw [show ((none : Option (List Nat)).getD []) = [] from rfl]
    rw [show Decode [] = Except.ok (⟨0, 0⟩ : Cursor) from rfl]
    show (let fetched := if (0 : Int) ≤ lim + 1 then
        (qualifyingRows tbl p c).take (lim + 1).toNat else qualifyingRows tbl p c
      buildPage fetched lim) =
      (let fetched := if (0 : Int) ≤ lim + 1 then
        (qualifyingRows tbl p ⟨0, 0⟩).take (lim + 1).toNat else qualifyingRows tbl p ⟨0, 0⟩
      buildPage fetched lim)
    rw [qualifyingRows_inactive (c := c) (by
      rintro ⟨h1, h2⟩
      rcases hdeg with hh | hh <;> omega)]
    rw [qualifyingRows_inactive (c := ⟨0, 0⟩) (by simp)]
  exact ⟨hgen _, hgen _⟩

theorem claim10_degenerate_cursor_witness :
    getLikers [⟨1, 9, true, 5, 5⟩] 9 (some (Encode ⟨0, 10⟩)) 3 =
      getLikers [⟨1, 9, true, 5, 5⟩] 9 none 3 :=
  (claim10_degenerate_cursor [⟨1, 9, true, 5, 5⟩] 9 3 (Encode ⟨0, 10⟩) ⟨0, 10⟩
    (by rfl) (Or.inl rfl)).1

/-- Claim C9 (amended): no `ValidationError` for a non-positive page
size exists anywhere: the service endpoints always call the repository
with the fixed limit 5, and the repository does not validate its
`limit`.  A repository call with `limit < 0` always panics on the
`decisions[limit-1]` index (modelled as `outOfRange`), a call with
`limit = 0` panics whenever at least one qualifying row exists, and
silently returns an empty page otherwise. -/
theorem claim9_limit_not_validated (tbl : Table) (R : Nat) (tok : Option (List Nat))
    (lim : Int) (c : Cursor) (hdec : Decode (tok.getD []) = .ok c) :
    (lim < 0 → getLikers tbl R tok lim = .error .outOfRange) ∧
    (lim = 0 → qualifyingRows tbl (likerRow tbl R) c ≠ [] →
      getLikers tbl R tok lim = .error .outOfRange) ∧
    (lim = 0 → qualifyingRows tbl (likerRow tbl R) c = [] →
      getLikers tbl R tok lim = .ok ([], none)) ∧
    (∀ token, listLikedYou tbl R token = getLikers tbl R token 5 ∧
      listNewLikedYou tbl R token = getNewLikers tbl R token 5) := by
  refine ⟨?_, ?_, ?_, fun _ => ⟨rfl, rfl⟩⟩
  · intro hneg
    unfold getLikers runListQuery
    rw [hdec]
    show (let fetched := if (0 : Int) ≤ lim + 1 then
        (qualifyingRows tbl (likerRow tbl R) c).take (lim + 1).toNat
      else qualifyingRows tbl (likerRow tbl R) c
      buildPage fetched lim) = _
    by_cases h01 : (0 : Int) ≤ lim + 1
    · rw [if_pos h01]
      have ht0 : (lim + 1).toNat = 0 := by omega
      rw [ht0, List.take_zero]
      unfold buildPage
      rw [if_pos (by
        have h00 : ((([] : List Decision).length : Int)) = 0 := rfl
        omega)]
      rw [if_neg (by omega)]
    · rw [if_neg h01]
      unfold buildPage
      rw [if_pos (by omega)]
      rw [if_neg (by omega)]
  · intro h0 hne
    subst h0
    unfold getLikers runListQuery
    rw [hdec]
    show (let fetched := if (0 : Int) ≤ 0 + 1 then
        (qualifyingRows tbl (likerRow tbl R) c).take ((0 : Int) + 1).toNat
      else qualifyingRows tbl (likerRow tbl R) c
      buildPage fetched 0) = _
    rw [if_pos (by omega)]
    have ht1 : ((0 : Int) + 1).toNat = 1 := by omega
    rw [ht1]
    have hlen : (qualifyingRows tbl (likerRow tbl R) c).length ≠ 0 := by
      simpa [List.length_eq_zero] using hne
    unfold buildPage
    rw [if_pos (by rw [List.length_take]; omega)]
    rw [if_neg (by omega)]
  · intro h0 hemp
    subst h0
    unfold getLikers runListQuery
    rw [hdec]
    show (let fetched := if (0 : Int) ≤ 0 + 1 then
        (qualifyingRows tbl (likerRow tbl R) c).take ((0 : Int) + 1).toNat
      else qualifyingRows tbl (likerRow tbl R) c
      buildPage fetched 0) = _
    rw [if_pos (by omega), hemp, List.take_nil]
    unfold buildPage
    rw [if_neg (by simp)]

theorem claim9_limit_not_validated_witness :
    getLikers [⟨3, 9, true, 5, 5⟩] 9 none (-1) = .error .outOfRange :=
  (claim9_limit_not_validated [⟨3, 9, true, 5, 5⟩] 9 none (-1) ⟨0, 0⟩ rfl).1 (by decide)

/-- Claim C9, counterexample to the claim as stated: a repository list
call with page size 0 over a store holding one qualifying liker does not
fail with a ValidationError — it hits the out-of-range index
`decisions[-1]` (a Go runtime panic); the repository has no validation
of `limit` at all. -/
theorem claim9_counterexample :
    getLikers [⟨3, 9, true, 5, 5⟩] 9 none 0 = .error .outOfRange := rfl

/-- Claim C2: every row a list query returns is a decision
`(X → R, liked = true)` stored in the table, for an actor the recipient
has not passed (no `(R → X, liked = false)` row); `GetNewLikers`
additionally never returns an actor with a `(R → X, liked = true)` row;
and `GetLikers` does return every such qualifying actor — mutual likers
included — when a whole-table page is requested (first page, limit at
least the table size). -/
theorem claim2_query_predicates (tbl : Table) (R : Nat) (tok : Option (List Nat))
    (lim : Int) :
    (∀ rows next, getLikers tbl R tok lim = .ok (rows, next) → ∀ d ∈ rows,
      d ∈ tbl ∧ d.recipientID = R ∧ d.liked = true ∧
        ¬ ∃ d2 ∈ tbl, d2.actorID = R ∧ d2.recipientID = d.actorID ∧ d2.liked = false) ∧
    (∀ rows next, getNewLikers tbl R tok lim = .ok (rows, next) → ∀ d ∈ rows,
      d ∈ tbl ∧ d.recipientID = R ∧ d.liked = true ∧
        (¬ ∃ d2 ∈ tbl, d2.actorID = R ∧ d2.recipientID = d.actorID ∧ d2.liked = false) ∧
        ¬ ∃ m ∈ tbl, m.actorID = R ∧ m.recipientID = d.actorID ∧ m.liked = true) ∧
    (tok = none → (tbl.length : Int) ≤ lim →
      ∀ d ∈ tbl, d.recipientID = R → d.liked = true →
        (¬ ∃ d2 ∈ tbl, d2.actorID = R ∧ d2.recipientID = d.actorID ∧ d2.liked = false) →
        ∀ rows next, getLikers tbl R tok lim = .ok (rows, next) → d ∈ rows) := by
  refine ⟨?_, ?_, ?_⟩
  · intro rows next h d hd
    have hm := runListQuery_sound h d hd
    have hf := List.mem_filter.mp hm
    have hp := (likerRow_iff tbl R d).mp hf.2
    exact ⟨hf.1, hp.1, hp.2.1, hp.2.2⟩
  · intro rows next h d hd
    have hm := runListQuery_sound h d hd
    have hf := List.mem_filter.mp hm
    have hp := (newLikerRow_iff tbl R d).mp hf.2
    have hl := (likerRow_iff tbl R d).mp hp.1
    refine ⟨hf.1, hl.1, hl.2.1, hl.2.2, ?_⟩
    rintro ⟨m, hmem, ha, hr, hliked⟩
    exact hp.2 ⟨m, hmem, by rw [hl.1]; exact ha, hr, hliked⟩
  · intro htok hlim d hd hrec hlik hpass rows next hq
    subst htok
    have h0 : 0 < tbl.length := List.length_pos_of_mem hd
    have hlim1 : (1 : Int) ≤ lim := by omega
    rw [show getLikers tbl R none lim = runListQuery tbl (likerRow tbl R) none lim
      from rfl] at hq
    rw [runListQuery_paging tbl (likerRow tbl R) none lim ⟨0, 0⟩ rfl hlim1] at hq
    have hQ : qualifyingRows tbl (likerRow tbl R) ⟨0, 0⟩ = sortedRows tbl (likerRow tbl R) :=
      qualifyingRows_inactive (by simp)
    have hQlen : ((qualifyingRows tbl (likerRow tbl R) ⟨0, 0⟩).length : Int) ≤ lim := by
      rw [hQ]
      have : (sortedRows tbl (likerRow tbl R)).length ≤ tbl.length := by
        unfold sortedRows
        rw [(List.perm_insertionSort likersOrder _).length_eq]
        exact List.length_filter_le _ _
      omega
    rw [if_neg (by omega)] at hq
    simp only [Except.ok.injEq, Prod.mk.injEq] at hq
    rw [← hq.1, hQ]
    rw [mem_sortedRows]
    exact List.mem_filter.mpr ⟨hd, (likerRow_iff tbl R d).mpr ⟨hrec, hlik, hpass⟩⟩

theorem claim2_query_predicates_witness :
    ∀ rows next,
      getLikers [⟨1, 9, true, 5, 5⟩] 9 none 5 = .ok (rows, next) →
      (⟨1, 9, true, 5, 5⟩ : Decision) ∈ rows :=
  fun rows next h =>
    (claim2_query_predicates [⟨1, 9, true, 5, 5⟩] 9 none 5).2.2 rfl (by decide)
      ⟨1, 9, true, 5, 5⟩ (by decide) rfl rfl (by decide) rows next h

/-- Claim C3 (amended): for a fixed table whose qualifying likers of `R`
all carry a positive actor id and a positive timestamp and belong to
pairwise distinct actors (as any table reachable through the upsert's
primary key does), paging `GetLikers` with any page size `K ≥ 1` from
the absent token to exhaustion terminates and yields exactly the
qualifying likers — no duplicates, none omitted — in strictly
descending `(updated_at, actor_id)` order.  (Without the positivity
hypothesis the loop need not terminate: see the counterexample.) -/
theorem claim3_pagination_stability (tbl : Table) (R K : Nat) (hK : 1 ≤ K)
    (hpos : ∀ d ∈ tbl.filter (likerRow tbl R), 0 < d.actorID ∧ 0 < d.updatedAt)
    (hdist : (tbl.filter (likerRow tbl R)).Pairwise fun a b => a.actorID ≠ b.actorID) :
    ∃ out, pageLoopLikers tbl R (K : Int) none (tbl.length + 1) = some out ∧
      out.Perm (tbl.filter (likerRow tbl R)) ∧ strictDesc out := by
  have hpos2 : ∀ d ∈ sortedRows tbl (likerRow tbl R), 0 < d.actorID ∧ 0 < d.updatedAt :=
    fun d hd => hpos d (mem_sortedRows.mp hd)
  have hsd := strictDesc_sortedRows hdist
  have hlen : (sortedRows tbl (likerRow tbl R)).length ≤ tbl.length := by
    unfold sortedRows
    rw [(List.perm_insertionSort likersOrder _).length_eq]
    exact List.length_filter_le _ _
  have h0 := pageLoopLikers_drop tbl R K hK hpos2 hsd (tbl.length + 1) 0 (by omega) (by omega)
  rw [show tokOf (sortedRows tbl (likerRow tbl R)) 0 = none from rfl] at h0
  rw [List.drop_zero] at h0
  exact ⟨sortedRows tbl (likerRow tbl R), h0, List.perm_insertionSort likersOrder _, hsd⟩

theorem claim3_pagination_stability_witness :
    ∃ out, pageLoopLikers [⟨1, 7, true, 10, 10⟩, ⟨2, 7, true, 5, 5⟩] 7 ((1 : Nat) : Int)
        none 3 = some out ∧
      out.Perm ([⟨1, 7, true, 10, 10⟩, ⟨2, 7, true, 5, 5⟩].filter
        (likerRow [⟨1, 7, true, 10, 10⟩, ⟨2, 7, true, 5, 5⟩] 7)) ∧
      strictDesc out :=
  claim3_pagination_stability [⟨1, 7, true, 10, 10⟩, ⟨2, 7, true, 5, 5⟩] 7 1
    (by decide) (by decide) (by decide)

/-- Claim C3, counterexample to the claim as stated: a store with a
qualifying liker whose actor id is 0 (a value `uint64` admits and
`PutDecision` accepts).  The first page returns that row and a token
encoding `ActorID = 0`; the follow-up call ignores the cursor (the code
only applies it when `ActorID > 0`), returns the same row again —
an actor appearing twice — and the loop never reaches the second liker
or exhaustion. -/
theorem claim3_counterexample :
    getLikers [⟨0, 9, true, 10, 10⟩, ⟨5, 9, true, 5, 5⟩] 9 none 1 =
      .ok ([⟨0, 9, true, 10, 10⟩], some (Encode ⟨0, 10⟩)) ∧
    getLikers [⟨0, 9, true, 10, 10⟩, ⟨5, 9, true, 5, 5⟩] 9 (some (Encode ⟨0, 10⟩)) 1 =
      .ok ([⟨0, 9, true, 10, 10⟩], some (Encode ⟨0, 10⟩)) ∧
    pageLoopLikers [⟨0, 9, true, 10, 10⟩, ⟨5, 9, true, 5, 5⟩] 9 1 none 10 = none :=
  ⟨rfl, rfl, rfl⟩

/-- Claim C4: for a decodable cursor position and page size `L ≥ 1`,
each list query fetches at most `L + 1` qualifying rows, returns at most
`L` rows, returns a next-page token iff an `(L+1)`-th qualifying row
existed past the cursor, builds that token from the
`(actor_id, updated_at milliseconds)` of the last row actually returned,
and returns no token when fewer than `L + 1` rows were found. -/
theorem claim4_limit_plus_one (tbl : Table) (R : Nat) (tok : Option (List Nat))
    (lim : Int) (c : Cursor) (hdec : Decode (tok.getD []) = .ok c) (hlim : 1 ≤ lim) :
    (∃ rows next, getLikers tbl R tok lim = .ok (rows, next) ∧
      (((qualifyingRows tbl (likerRow tbl R) c).take (lim + 1).toNat).length : Int) ≤ lim + 1 ∧
      (rows.length : Int) ≤ lim ∧
      (next = none ↔ ((qualifyingRows tbl (likerRow tbl R) c).length : Int) ≤ lim) ∧
      (((qualifyingRows tbl (likerRow tbl R) c).length : Int) ≤ lim →
        rows = qualifyingRows tbl (likerRow tbl R) c) ∧
      (lim < ((qualifyingRows tbl (likerRow tbl R) c).length : Int) →
        rows = (qualifyingRows tbl (likerRow tbl R) c).take lim.toNat ∧
        next = some (Encode
          ⟨((qualifyingRows tbl (likerRow tbl R) c).getD (lim - 1).toNat
              zeroDecision).actorID,
            (((qualifyingRows tbl (likerRow tbl R) c).getD (lim - 1).toNat
              zeroDecision).updatedAt : Int)⟩) ∧
        rows.getD (lim.toNat - 1) zeroDecision =
          (qualifyingRows tbl (likerRow tbl R) c).getD (lim - 1).toNat zeroDecision)) ∧
    (∃ rows next, getNewLikers tbl R tok lim = .ok (rows, next) ∧
      (((qualifyingRows tbl (newLikerRow tbl R) c).take (lim + 1).toNat).length : Int) ≤
        lim + 1 ∧
      (rows.length : Int) ≤ lim ∧
      (next = none ↔ ((qualifyingRows tbl (newLikerRow tbl R) c).length : Int) ≤ lim) ∧
      (((qualifyingRows tbl (newLikerRow tbl R) c).length : Int) ≤ lim →
        rows = qualifyingRows tbl (newLikerRow tbl R) c) ∧
      (lim < ((qualifyingRows tbl (newLikerRow tbl R) c).length : Int) →
        rows = (qualifyingRows tbl (newLikerRow tbl R) c).take lim.toNat ∧
        next = some (Encode
          ⟨((qualifyingRows tbl (newLikerRow tbl R) c).getD (lim - 1).toNat
              zeroDecision).actorID,
            (((qualifyingRows tbl (newLikerRow tbl R) c).getD (lim - 1).toNat
              zeroDecision).updatedAt : Int)⟩) ∧
        rows.getD (lim.toNat - 1) zeroDecision =
          (qualifyingRows tbl (newLikerRow tbl R) c).getD (lim - 1).toNat zeroDecision)) :=
  ⟨listQuery_paging_props tbl (likerRow tbl R) tok lim c hdec hlim,
    listQuery_paging_props tbl (newLikerRow tbl R) tok lim c hdec hlim⟩

theorem claim4_limit_plus_one_witness :
    ∃ rows next, getLikers [⟨1, 9, true, 5, 5⟩] 9 none 1 = .ok (rows, next) := by
  obtain ⟨rows, next, h, _⟩ :=
    (claim4_limit_plus_one [⟨1, 9, true, 5, 5⟩] 9 none 1 ⟨0, 0⟩ rfl (by decide)).1
  exact ⟨rows, next, h⟩

/-- Claim C6 (amended): `CountLikers` counts exactly the rows of the
`GetLikers` predicate (`liked = true` into `R`, minus actors `R`
passed); under the same reachable-store hypotheses as the pagination
claim (positive ids and timestamps, distinct actors), paging
`GetLikers` to exhaustion enumerates exactly that many likers.
(Without those hypotheses the paging loop need not terminate, so the
enumeration never completes: see the counterexample.) -/
theorem claim6_count_agrees (tbl : Table) (R K : Nat) (hK : 1 ≤ K)
    (hpos : ∀ d ∈ tbl.filter (likerRow tbl R), 0 < d.actorID ∧ 0 < d.updatedAt)
    (hdist : (tbl.filter (likerRow tbl R)).Pairwise fun a b => a.actorID ≠ b.actorID) :
    countLikers tbl R = (tbl.filter (likerRow tbl R)).length ∧
    ∃ out, pageLoopLikers tbl R (K : Int) none (tbl.length + 1) = some out ∧
      out.length = countLikers tbl R := by
  refine ⟨rfl, ?_⟩
  have hpos2 : ∀ d ∈ sortedRows tbl (likerRow tbl R), 0 < d.actorID ∧ 0 < d.updatedAt :=
    fun d hd => hpos d (mem_sortedRows.mp hd)
  have hsd := strictDesc_sortedRows hdist
  have hlen : (sortedRows tbl (likerRow tbl R)).length ≤ tbl.length := by
    unfold sortedRows
    rw [(List.perm_insertionSort likersOrder _).length_eq]
    exact List.length_filter_le _ _
  have h0 := pageLoopLikers_drop tbl R K hK hpos2 hsd (tbl.length + 1) 0 (by omega) (by omega)
  rw [show tokOf (sortedRows tbl (likerRow tbl R)) 0 = none from rfl] at h0
  rw [List.drop_zero] at h0
  refine ⟨sortedRows tbl (likerRow tbl R), h0, ?_⟩
  show (sortedRows tbl (likerRow tbl R)).length = (tbl.filter (likerRow tbl R)).length
  unfold sortedRows
  exact (List.perm_insertionSort likersOrder _).length_eq

theorem claim6_count_agrees_witness :
    countLikers [⟨1, 7, true, 10, 10⟩, ⟨2, 7, true, 5, 5⟩] 7 =
      ([⟨1, 7, true, 10, 10⟩, ⟨2, 7, true, 5, 5⟩].filter
        (likerRow [⟨1, 7, true, 10, 10⟩, ⟨2, 7, true, 5, 5⟩] 7)).length :=
  (claim6_count_agrees [⟨1, 7, true, 10, 10⟩, ⟨2, 7, true, 5, 5⟩] 7 1
    (by decide) (by decide) (by decide)).1

/-- Claim C6, counterexample to the claim as stated: with a qualifying
liker whose actor id is 0, the authoritative count is 2, but paging
`GetLikers` to exhaustion never completes — every page returns the same
degenerate-cursor token — so no enumeration total exists to agree with
the count. -/
theorem claim6_counterexample :
    countLikers [⟨0, 4, true, 20, 20⟩, ⟨7, 4, true, 3, 3⟩] 4 = 2 ∧
    getLikers [⟨0, 4, true, 20, 20⟩, ⟨7, 4, true, 3, 3⟩] 4 (some (Encode ⟨0, 20⟩)) 1 =
      .ok ([⟨0, 4, true, 20, 20⟩], some (Encode ⟨0, 20⟩)) ∧
    pageLoopLikers [⟨0, 4, true, 20, 20⟩, ⟨7, 4, true, 3, 3⟩] 4 1 none 8 = none :=
  ⟨rfl, rfl, rfl⟩

end MuzzExplore
